import Mathlib

/-!
Shallow embedding of the Scarab perceptron branch predictor
(src/bp/bp_perceptron.c and bp_perceptron.h), after
"Dynamic Branch Prediction with Perceptrons" (Jimenez and Lin, HPCA 2001).

The module's global state (the Bp_Perceptron struct plus the file-static
statistics counters) is modelled as one record that every operation takes and
returns. Machine integers are modelled as ℕ (unsigned) and ℤ (signed) with
explicit reductions mod 2 ^ w where the C computation can wrap; all weight
arithmetic is exact in the C code (int32 intermediate values stay far from
the int32 bounds), so weights are plain ℤ.
-/

namespace Scarab

/-- Maximum supported history length, PERCEPTRON_MAX_HIST_LEN in bp_perceptron.h. -/
def PERCEPTRON_MAX_HIST_LEN : ℕ := 64

/-- Upper weight clamp, PERCEPTRON_WEIGHT_MAX in bp_perceptron.h. -/
def PERCEPTRON_WEIGHT_MAX : ℤ := 127

/-- Lower weight clamp, PERCEPTRON_WEIGHT_MIN in bp_perceptron.h. -/
def PERCEPTRON_WEIGHT_MIN : ℤ := -128

/-- calculate_threshold from bp_perceptron.c:
theta = (int32)(1.93 * (double)hist_len + 14.0).
The double computation is modelled exactly over ℚ: for every hist_len in the
supported range the exact value 1.93 * hist_len + 14 is a multiple of 1/100
at distance at least 1/100 from the nearest larger integer, while the double
rounding error is below 1e-10, so the double truncation agrees with the exact
floor (the cast truncates toward zero and the value is positive). -/
def calculate_threshold (hist_len : ℕ) : ℤ :=
  ⌊(1.93 : ℚ) * hist_len + 14⌋

/-- compute_index from bp_perceptron.c: (uns32)((pc >> 2) & (num_entries - 1)).
The cast to uns32 is the identity because the mask keeps the value below
num_entries, itself a uns32. -/
def compute_index (num_entries : ℕ) (pc : ℕ) : ℕ :=
  (pc >>> 2) &&& (num_entries - 1)

/-- to_bipolar from bp_perceptron.c: bit ? 1 : -1. -/
def to_bipolar (bit : ℕ) : ℤ :=
  if bit ≠ 0 then 1 else -1

/-- saturate_weight from bp_perceptron.c: clamp an int32 value to the 8-bit
signed weight range. -/
def saturate_weight (val : ℤ) : ℤ :=
  if val > PERCEPTRON_WEIGHT_MAX then PERCEPTRON_WEIGHT_MAX
  else if val < PERCEPTRON_WEIGHT_MIN then PERCEPTRON_WEIGHT_MIN
  else val

/-- Per-branch saved prediction state, Perceptron_State in bp_perceptron.h:
the raw perceptron output, the global history register captured at prediction
time, and the table index that was used. -/
structure Perceptron_State where
  y_out : ℤ
  ghist : ℕ
  index : ℕ
deriving DecidableEq

/-- Global state of the predictor module: the Bp_Perceptron struct of
bp_perceptron.h together with the four file-static statistics counters of
bp_perceptron.c. The weight table is total: table idx i is weights[i] of
table[idx]. -/
structure Bp_Perceptron where
  table : ℕ → ℕ → ℤ
  num_entries : ℕ
  hist_len : ℕ
  threshold : ℤ
  ghist : ℕ
  stat_predictions : ℕ
  stat_mispredictions : ℕ
  stat_updates : ℕ
  stat_threshold_updates : ℕ

/-- State produced by a successful bp_perceptron_init with the given
parameters: configuration recorded, zeroed weight table (calloc plus the
explicit zeroing loop), history register 0, statistics reset. num_entries is
the uns32 value of 1 << PERCEPTRON_TABLE_BITS. -/
def init_state (hist_len table_bits : ℕ) : Bp_Perceptron where
  table := fun _ _ => 0
  num_entries := (1 <<< table_bits) % 2 ^ 32
  hist_len := hist_len
  threshold := calculate_threshold hist_len
  ghist := 0
  stat_predictions := 0
  stat_mispredictions := 0
  stat_updates := 0
  stat_threshold_updates := 0

/-- bp_perceptron_init from bp_perceptron.c. The two configuration ASSERTs
(hist_len <= PERCEPTRON_MAX_HIST_LEN and num_entries > 0) abort the program
when violated, modelled as none; allocation is assumed to succeed. -/
def bp_perceptron_init (hist_len table_bits : ℕ) : Option Bp_Perceptron :=
  if hist_len ≤ PERCEPTRON_MAX_HIST_LEN ∧ 0 < (1 <<< table_bits) % 2 ^ 32 then
    some (init_state hist_len table_bits)
  else none

/-- Summation loop of bp_perceptron_predict: for i = 1..hist_len the body is
y += to_bipolar(hist & 1) * w[i]; hist >>= 1. The last argument counts the
remaining iterations; i is the current loop index. -/
def pred_loop (w : ℕ → ℤ) : ℕ → ℤ → ℕ → ℕ → ℤ
  | _, y, _, 0 => y
  | hist, y, i, fuel + 1 =>
      pred_loop w (hist >>> 1) (y + to_bipolar (hist &&& 1) * w i) (i + 1) fuel

/-- bp_perceptron_predict from bp_perceptron.c (bp_perceptron_pred in the
header's variant): returns the uns8 direction (1 = taken when y >= 0), the
saved Perceptron_State written through the out-parameters, and the module
state after the call (only stat_predictions is incremented). -/
def bp_perceptron_pred (s : Bp_Perceptron) (pc : ℕ) :
    ℕ × Perceptron_State × Bp_Perceptron :=
  let index := compute_index s.num_entries pc
  let w := s.table index
  let y := pred_loop w s.ghist (w 0) 1 s.hist_len
  ((if 0 ≤ y then 1 else 0),
   { y_out := y, ghist := s.ghist, index := index },
   { s with stat_predictions := s.stat_predictions + 1 })

/-- Weight-update loop of bp_perceptron_train: for i = 1..hist_len the body is
weights[i] = saturate_weight(weights[i] + t * to_bipolar(hist & 1)); hist >>= 1.
The last argument counts the remaining iterations; i is the current loop
index; the weight vector is threaded through as a function. -/
def train_loop (t : ℤ) : (ℕ → ℤ) → ℕ → ℕ → ℕ → (ℕ → ℤ)
  | w, _, _, 0 => w
  | w, hist, i, fuel + 1 =>
      train_loop t
        (Function.update w i (saturate_weight (w i + t * to_bipolar (hist &&& 1))))
        (hist >>> 1) (i + 1) fuel

/-- bp_perceptron_train from bp_perceptron.c: bipolar conversion of outcome
and prediction, misprediction accounting, the update condition
predicted != t or abs(y) <= threshold, and the saturating update of
table[st.index] driven by the history captured in the snapshot st. -/
def bp_perceptron_train (s : Bp_Perceptron) (taken : Bool) (st : Perceptron_State) :
    Bp_Perceptron :=
  let t : ℤ := if taken then 1 else -1
  let predicted : ℤ := if 0 ≤ st.y_out then 1 else -1
  let stat_mis := if predicted ≠ t then s.stat_mispredictions + 1 else s.stat_mispredictions
  if predicted ≠ t ∨ |st.y_out| ≤ s.threshold then
    let w := s.table st.index
    let w0 := Function.update w 0 (saturate_weight (w 0 + t))
    let wn := train_loop t w0 st.ghist 1 s.hist_len
    { s with
        table := Function.update s.table st.index wn
        stat_mispredictions := stat_mis
        stat_updates := s.stat_updates + 1
        stat_threshold_updates :=
          if predicted = t then s.stat_threshold_updates + 1 else s.stat_threshold_updates }
  else
    { s with stat_mispredictions := stat_mis }

/-- bp_perceptron_shift_ghist from bp_perceptron.c:
ghist = (ghist << 1) | (taken ? 1 : 0), computed on the uns64 register. -/
def bp_perceptron_shift_ghist (s : Bp_Perceptron) (taken : Bool) : Bp_Perceptron :=
  { s with ghist := ((s.ghist <<< 1) ||| (if taken then 1 else 0)) % 2 ^ 64 }

/-- bp_perceptron_recover (named bp_perceptron_restore_ghist in
bp_perceptron.c): unconditionally overwrite the global history register. -/
def bp_perceptron_recover (s : Bp_Perceptron) (ghist : ℕ) : Bp_Perceptron :=
  { s with ghist := ghist }

/-- Folding a sequence of resolved branches (true outcome paired with the
branch's saved snapshot) through bp_perceptron_train. -/
def run_trains (s : Bp_Perceptron) : List (Bool × Perceptron_State) → Bp_Perceptron
  | [] => s
  | (tk, st) :: rest => run_trains (bp_perceptron_train s tk st) rest

/-!
Loop characterizations: closed forms for the two source loops, proved by
induction on the remaining iteration count.
-/

/-- Closed form of the prediction summation loop: starting at accumulator y
and loop index i with the remaining history bits hist, the loop adds
to_bipolar of bit k of hist times w (i + k) for k below fuel. -/
theorem pred_loop_eq (w : ℕ → ℤ) :
    ∀ (fuel hist i : ℕ) (y : ℤ),
      pred_loop w hist y i fuel =
        y + ∑ k ∈ Finset.range fuel, to_bipolar (hist / 2 ^ k % 2) * w (i + k) := by
  intro fuel
  induction fuel with
  | zero => intro hist i y; simp [pred_loop]
  | succ n ih =>
    intro hist i y
    rw [pred_loop, ih, Finset.sum_range_succ']
    have hterm : ∀ k ∈ Finset.range n,
        to_bipolar ((hist >>> 1) / 2 ^ k % 2) * w (i + 1 + k)
          = to_bipolar (hist / 2 ^ (k + 1) % 2) * w (i + (k + 1)) := by
      intro k _
      rw [Nat.shiftRight_eq_div_pow, pow_one, Nat.div_div_eq_div_mul]
      rw [show 2 * 2 ^ k = 2 ^ (k + 1) from (pow_succ' 2 k).symm]
      rw [show i + 1 + k = i + (k + 1) by omega]
    rw [Finset.sum_congr rfl hterm]
    simp only [Nat.and_one_is_mod, pow_zero, Nat.div_one, add_zero]
    ring

/-- Closed form of the weight-update loop: position j is overwritten with the
saturating update driven by bit j - i of hist exactly when the loop visits it,
that is when i ≤ j < i + fuel; every other position keeps its value. -/
theorem train_loop_eq (t : ℤ) :
    ∀ (fuel : ℕ) (w : ℕ → ℤ) (hist i j : ℕ),
      train_loop t w hist i fuel j =
        if i ≤ j ∧ j < i + fuel then
          saturate_weight (w j + t * to_bipolar (hist / 2 ^ (j - i) % 2))
        else w j := by
  intro fuel
  induction fuel with
  | zero =>
    intro w hist i j
    rw [train_loop, if_neg]
    omega
  | succ n ih =>
    intro w hist i j
    rw [train_loop, ih]
    by_cases hji : j = i
    · subst hji
      rw [if_neg (by omega), if_pos ⟨le_refl j, by omega⟩]
      simp [Function.update, Nat.and_one_is_mod]
    · by_cases hvisit : i + 1 ≤ j ∧ j < i + 1 + n
      · rw [if_pos hvisit, if_pos ⟨by omega, by omega⟩]
        rw [Function.update_noteq hji]
        rw [Nat.shiftRight_eq_div_pow, pow_one, Nat.div_div_eq_div_mul]
        rw [show 2 * 2 ^ (j - (i + 1)) = 2 ^ (j - i) by
          rw [show j - i = (j - (i + 1)) + 1 by omega, pow_succ]; ring]
      · rw [if_neg hvisit, if_neg (by omega)]
        exact Function.update_noteq hji _ w

/-- Perceptron output of a table entry, written as the specification's dot
product: bias weight plus the sum over history positions, position k + 1
weighted by the bipolar value of bit k of the history register. -/
theorem bp_pred_y (s : Bp_Perceptron) (idx : ℕ) :
    pred_loop (s.table idx) s.ghist (s.table idx 0) 1 s.hist_len =
      s.table idx 0 + ∑ k ∈ Finset.range s.hist_len,
        to_bipolar (s.ghist / 2 ^ k % 2) * s.table idx (k + 1) := by
  rw [pred_loop_eq]
  congr 1
  refine Finset.sum_congr rfl fun k _ => ?_
  rw [Nat.add_comm 1 k]

/-- C2: for every pc, weight table and history value, prediction computes
y = w 0 + sum over i = 1..hist_len of bipolar(bit (i-1) of the current global
history) * w i over the entry at compute_index, returns direction 1 (taken)
exactly when 0 ≤ y, and a snapshot holding exactly the index, y, and the
current history register value. -/
theorem bp_pred_matches_dot_product (s : Bp_Perceptron) (pc : ℕ) :
    bp_perceptron_pred s pc =
      ((if 0 ≤ s.table (compute_index s.num_entries pc) 0 +
            ∑ k ∈ Finset.range s.hist_len,
              to_bipolar (s.ghist / 2 ^ k % 2) *
                s.table (compute_index s.num_entries pc) (k + 1)
        then 1 else 0),
       { y_out := s.table (compute_index s.num_entries pc) 0 +
            ∑ k ∈ Finset.range s.hist_len,
              to_bipolar (s.ghist / 2 ^ k % 2) *
                s.table (compute_index s.num_entries pc) (k + 1),
         ghist := s.ghist,
         index := compute_index s.num_entries pc },
       { s with stat_predictions := s.stat_predictions + 1 }) := by
  simp only [bp_perceptron_pred]
  rw [bp_pred_y]

/-- C1: training updates the weight vector at st.index exactly when the
bipolar prediction differs from the bipolar outcome t or the raw output is
within the threshold in magnitude; when it updates, weight i for
i = 0..hist_len becomes saturate_weight of w i + t * x i with x 0 = 1 and
x i the bipolar value of bit i - 1 of the snapshot history, all other
positions and entries kept; the misprediction counter increments exactly when
the bipolar prediction differs from t. -/
theorem bp_train_matches_learning_rule (s : Bp_Perceptron) (taken : Bool)
    (st : Perceptron_State) :
    (bp_perceptron_train s taken st).stat_mispredictions =
      (if (if 0 ≤ st.y_out then (1 : ℤ) else -1) ≠ (if taken then (1 : ℤ) else -1) then
        s.stat_mispredictions + 1 else s.stat_mispredictions)
    ∧ (bp_perceptron_train s taken st).table =
      (if (if 0 ≤ st.y_out then (1 : ℤ) else -1) ≠ (if taken then (1 : ℤ) else -1)
          ∨ |st.y_out| ≤ s.threshold then
        Function.update s.table st.index (fun i =>
          if i ≤ s.hist_len then
            saturate_weight (s.table st.index i +
              (if taken then (1 : ℤ) else -1) *
                (if i = 0 then 1 else to_bipolar (st.ghist / 2 ^ (i - 1) % 2)))
          else s.table st.index i)
      else s.table) := by
  constructor
  · simp only [bp_perceptron_train]
    split_ifs <;> rfl
  · simp only [bp_perceptron_train]
    by_cases hcond :
        (if 0 ≤ st.y_out then (1 : ℤ) else -1) ≠ (if taken then (1 : ℤ) else -1)
          ∨ |st.y_out| ≤ s.threshold
    · rw [if_pos hcond, if_pos hcond]
      dsimp only
      funext e j
      by_cases he : e = st.index
      · subst he
        rw [Function.update_same, Function.update_same]
        rw [train_loop_eq]
        by_cases hj0 : j = 0
        · subst hj0
          rw [if_neg (by omega), if_pos (Nat.zero_le _)]
          rw [Function.update_same, if_pos rfl, mul_one]
        · by_cases hjn : j ≤ s.hist_len
          · rw [if_pos ⟨by omega, by omega⟩, if_pos hjn, if_neg hj0]
            rw [Function.update_noteq hj0]
          · rw [if_neg (by omega), if_neg hjn]
            exact Function.update_noteq hj0 _ _
      · rw [Function.update_noteq he, Function.update_noteq he]
    · rw [if_neg hcond, if_neg hcond]

/-- Output of saturate_weight always lies in the 8-bit signed weight range. -/
theorem saturate_weight_range (v : ℤ) :
    PERCEPTRON_WEIGHT_MIN ≤ saturate_weight v ∧
      saturate_weight v ≤ PERCEPTRON_WEIGHT_MAX := by
  unfold saturate_weight PERCEPTRON_WEIGHT_MIN PERCEPTRON_WEIGHT_MAX
  split_ifs <;> omega

/-- One training call keeps every weight of every entry inside the 8-bit
signed range. -/
theorem train_preserves_range (s : Bp_Perceptron)
    (h : ∀ e i, PERCEPTRON_WEIGHT_MIN ≤ s.table e i ∧
      s.table e i ≤ PERCEPTRON_WEIGHT_MAX)
    (taken : Bool) (st : Perceptron_State) :
    ∀ e i, PERCEPTRON_WEIGHT_MIN ≤ (bp_perceptron_train s taken st).table e i ∧
      (bp_perceptron_train s taken st).table e i ≤ PERCEPTRON_WEIGHT_MAX := by
  intro e i
  simp only [bp_perceptron_train]
  by_cases hcond :
      ((if 0 ≤ st.y_out then (1 : ℤ) else -1) ≠ (if taken then (1 : ℤ) else -1))
        ∨ |st.y_out| ≤ s.threshold
  · rw [if_pos hcond]
    dsimp only
    by_cases he : e = st.index
    · subst he
      rw [Function.update_same, train_loop_eq]
      by_cases hv : 1 ≤ i ∧ i < 1 + s.hist_len
      · rw [if_pos hv]
        exact saturate_weight_range _
      · rw [if_neg hv]
        by_cases hi0 : i = 0
        · subst hi0
          rw [Function.update_same]
          exact saturate_weight_range _
        · rw [Function.update_noteq hi0]
          exact h _ _
    · rw [Function.update_noteq he]
      exact h _ _
  · rw [if_neg hcond]
    exact h e i

/-- Any sequence of training calls keeps every weight of every entry inside
the 8-bit signed range. -/
theorem run_trains_preserves_range (l : List (Bool × Perceptron_State)) :
    ∀ (s : Bp_Perceptron),
      (∀ e i, PERCEPTRON_WEIGHT_MIN ≤ s.table e i ∧
        s.table e i ≤ PERCEPTRON_WEIGHT_MAX) →
      ∀ e i, PERCEPTRON_WEIGHT_MIN ≤ (run_trains s l).table e i ∧
        (run_trains s l).table e i ≤ PERCEPTRON_WEIGHT_MAX := by
  induction l with
  | nil => intro s h; exact h
  | cons p rest ih =>
    obtain ⟨tk, st⟩ := p
    intro s h
    exact ih _ (train_preserves_range s h tk st)

/-- C3: after any sequence of train calls every weight remains in
[-128, 127]; iterating the update contribution +1 from 0 reaches 127 and
stays there (the value after n steps is min n 127), iterating -1 reaches
-128 and stays there (the value after n steps is max (-n) (-128)), and one
more step at either bound is absorbed. -/
theorem bp_weights_saturate :
    (∀ (s : Bp_Perceptron),
      (∀ e i, PERCEPTRON_WEIGHT_MIN ≤ s.table e i ∧
        s.table e i ≤ PERCEPTRON_WEIGHT_MAX) →
      ∀ (l : List (Bool × Perceptron_State)) (e i : ℕ),
        PERCEPTRON_WEIGHT_MIN ≤ (run_trains s l).table e i ∧
          (run_trains s l).table e i ≤ PERCEPTRON_WEIGHT_MAX)
  ∧ (∀ n : ℕ, (fun w => saturate_weight (w + 1))^[n] 0 = min (n : ℤ) 127)
  ∧ (∀ n : ℕ, (fun w => saturate_weight (w - 1))^[n] 0 = max (-(n : ℤ)) (-128))
  ∧ saturate_weight (127 + 1) = 127 ∧ saturate_weight (-128 - 1) = -128 := by
  refine ⟨fun s h l e i => run_trains_preserves_range l s h e i, ?_, ?_, by decide, by decide⟩
  · intro n
    induction n with
    | zero => simp
    | succ m ihm =>
      rw [Function.iterate_succ_apply', ihm]
      unfold saturate_weight PERCEPTRON_WEIGHT_MAX PERCEPTRON_WEIGHT_MIN
      push_cast
      split_ifs <;> omega
  · intro n
    induction n with
    | zero => simp
    | succ m ihm =>
      rw [Function.iterate_succ_apply', ihm]
      unfold saturate_weight PERCEPTRON_WEIGHT_MAX PERCEPTRON_WEIGHT_MIN
      push_cast
      split_ifs <;> omega

/-- Witness for bp_weights_saturate at a concrete state, trace and iteration
count. -/
theorem bp_weights_saturate_witness :
    (PERCEPTRON_WEIGHT_MIN ≤
        (run_trains (init_state 1 0) [(true, ⟨0, 0, 0⟩)]).table 0 0 ∧
      (run_trains (init_state 1 0) [(true, ⟨0, 0, 0⟩)]).table 0 0 ≤
        PERCEPTRON_WEIGHT_MAX) ∧
    ((fun w => saturate_weight (w + 1))^[130] 0 = min (130 : ℤ) 127) ∧
    ((fun w => saturate_weight (w - 1))^[130] 0 = max (-(130 : ℤ)) (-128)) :=
  ⟨bp_weights_saturate.1 (init_state 1 0)
      (fun e i => by norm_num [init_state, PERCEPTRON_WEIGHT_MIN, PERCEPTRON_WEIGHT_MAX])
      [(true, ⟨0, 0, 0⟩)] 0 0,
   bp_weights_saturate.2.1 130,
   bp_weights_saturate.2.2.1 130⟩

/-- C4: the speculative advance writes (ghist << 1) | predictedBit into the
uns64 register, recover overwrites the register unconditionally, and a shift
followed by recover h0 leaves the register bit-exactly h0. -/
theorem bp_ghist_shift_recover_roundtrip :
    (∀ (s : Bp_Perceptron) (taken : Bool),
      (bp_perceptron_shift_ghist s taken).ghist =
        ((s.ghist <<< 1) ||| (if taken then 1 else 0)) % 2 ^ 64)
  ∧ (∀ (s : Bp_Perceptron) (h0 : ℕ), (bp_perceptron_recover s h0).ghist = h0)
  ∧ (∀ (s : Bp_Perceptron) (taken : Bool) (h0 : ℕ),
      (bp_perceptron_recover (bp_perceptron_shift_ghist s taken) h0).ghist = h0) :=
  ⟨fun _ _ => rfl, fun _ _ => rfl, fun _ _ _ => rfl⟩

/-- C5: prediction never mutates the weight table or the history register
(the post-state is the pre-state with only stat_predictions incremented), and
a repeated call against the resulting state returns the same direction and
the same snapshot. -/
theorem bp_pred_read_only_deterministic (s : Bp_Perceptron) (pc : ℕ) :
    (bp_perceptron_pred s pc).2.2.table = s.table
  ∧ (bp_perceptron_pred s pc).2.2.ghist = s.ghist
  ∧ (bp_perceptron_pred s pc).2.2 = { s with stat_predictions := s.stat_predictions + 1 }
  ∧ (bp_perceptron_pred ((bp_perceptron_pred s pc).2.2) pc).1 = (bp_perceptron_pred s pc).1
  ∧ (bp_perceptron_pred ((bp_perceptron_pred s pc).2.2) pc).2.1 =
      (bp_perceptron_pred s pc).2.1 :=
  ⟨rfl, rfl, rfl, rfl, rfl⟩

/-- C6: the threshold stored at initialization is calculate_threshold of the
history length, and the floor formula gives 37, 68, 83, 127 at history
lengths 12, 28, 36, 59. -/
theorem bp_threshold_derivation :
    (∀ (h tb : ℕ) (s : Bp_Perceptron), bp_perceptron_init h tb = some s →
        s.threshold = calculate_threshold h)
  ∧ calculate_threshold 12 = 37 ∧ calculate_threshold 28 = 68
  ∧ calculate_threshold 36 = 83 ∧ calculate_threshold 59 = 127 := by
  refine ⟨?_, by norm_num [calculate_threshold], by norm_num [calculate_threshold],
    by norm_num [calculate_threshold], by norm_num [calculate_threshold]⟩
  intro h tb s hs
  unfold bp_perceptron_init at hs
  split_ifs at hs
  · obtain rfl := Option.some.inj hs
    rfl

/-- Witness for bp_threshold_derivation at a concrete configuration. -/
theorem bp_threshold_derivation_witness :
    (init_state 12 0).threshold = calculate_threshold 12 :=
  bp_threshold_derivation.1 12 0 (init_state 12 0) rfl

/-- C7: initialization fails (fatal ASSERT) exactly when the history length
exceeds 64 or the table size is zero; on success the table is all zeros, the
history register is 0, the threshold is derived from the history length, the
configuration is recorded, and the constraints hold. -/
theorem bp_init_validation :
    (∀ h tb : ℕ, bp_perceptron_init h tb = none ↔
        (PERCEPTRON_MAX_HIST_LEN < h ∨ (1 <<< tb) % 2 ^ 32 = 0))
  ∧ (∀ (h tb : ℕ) (s : Bp_Perceptron), bp_perceptron_init h tb = some s →
      (∀ e i, s.table e i = 0) ∧ s.ghist = 0 ∧ s.threshold = calculate_threshold h
        ∧ s.hist_len = h ∧ s.num_entries = (1 <<< tb) % 2 ^ 32
        ∧ 0 < s.num_entries ∧ h ≤ PERCEPTRON_MAX_HIST_LEN) := by
  constructor
  · intro h tb
    unfold bp_perceptron_init
    split_ifs with hc
    · exact iff_of_false (by simp) (by omega)
    · refine iff_of_true rfl ?_
      by_contra hno
      push_neg at hno
      exact hc ⟨by omega, by omega⟩
  · intro h tb s hs
    unfold bp_perceptron_init at hs
    split_ifs at hs with hc
    · obtain rfl := Option.some.inj hs
      exact ⟨fun e i => rfl, rfl, rfl, rfl, rfl, hc.2, hc.1⟩

/-- Witness for bp_init_validation: a valid and an invalid configuration. -/
theorem bp_init_validation_witness :
    (init_state 28 7).table 0 0 = 0 ∧ (init_state 28 7).ghist = 0 ∧
      bp_perceptron_init 65 0 = none :=
  ⟨(bp_init_validation.2 28 7 (init_state 28 7) rfl).1 0 0,
   (bp_init_validation.2 28 7 (init_state 28 7) rfl).2.1,
   (bp_init_validation.1 65 0).mpr (Or.inl (by decide))⟩

/-- C8: the masked index equals (pc >> 2) mod the table size whenever the
table size is a power of two, and is strictly below the table size. -/
theorem bp_compute_index_mod (ne pc k : ℕ) (hk : ne = 2 ^ k) :
    compute_index ne pc = (pc >>> 2) % ne ∧ compute_index ne pc < ne := by
  subst hk
  unfold compute_index
  rw [Nat.and_pow_two_sub_one_eq_mod]
  exact ⟨rfl, Nat.mod_lt _ (pow_pos (by norm_num) k)⟩

/-- Witness for bp_compute_index_mod at a concrete table size and pc. -/
theorem bp_compute_index_mod_witness :
    compute_index 8 100 = (100 >>> 2) % 8 ∧ compute_index 8 100 < 8 :=
  bp_compute_index_mod 8 100 3 rfl

/-- C9: in the state produced by initialization (all weights zero, history
register 0) the prediction is taken (direction bit 1) for every pc, the raw
output being 0. -/
theorem bp_cold_start_predicts_taken (h tb : ℕ) (s : Bp_Perceptron)
    (hs : bp_perceptron_init h tb = some s) (pc : ℕ) :
    (bp_perceptron_pred s pc).1 = 1 ∧ (bp_perceptron_pred s pc).2.1.y_out = 0 := by
  unfold bp_perceptron_init at hs
  split_ifs at hs
  · obtain rfl := Option.some.inj hs
    constructor
    · simp only [bp_perceptron_pred]
      rw [bp_pred_y]
      simp [init_state]
    · simp only [bp_perceptron_pred]
      rw [bp_pred_y]
      simp [init_state]

/-- Witness for bp_cold_start_predicts_taken at a concrete configuration
and pc. -/
theorem bp_cold_start_witness :
    (bp_perceptron_pred (init_state 28 7) 1024).1 = 1 ∧
      (bp_perceptron_pred (init_state 28 7) 1024).2.1.y_out = 0 :=
  bp_cold_start_predicts_taken 28 7 (init_state 28 7) rfl 1024

/-- C10: training touches only the weight vector at the snapshot's index and
the statistics counters: every other table entry, the history register and
the configuration fields are unchanged, and the result does not depend on
the live history register at all (training a state with any register value g
equals training the original state and then setting the register to g). -/
theorem bp_train_frame (s : Bp_Perceptron) (taken : Bool) (st : Perceptron_State) :
    (∀ e, e ≠ st.index → (bp_perceptron_train s taken st).table e = s.table e)
  ∧ (bp_perceptron_train s taken st).ghist = s.ghist
  ∧ (bp_perceptron_train s taken st).num_entries = s.num_entries
  ∧ (bp_perceptron_train s taken st).hist_len = s.hist_len
  ∧ (bp_perceptron_train s taken st).threshold = s.threshold
  ∧ (∀ g : ℕ, bp_perceptron_train { s with ghist := g } taken st =
      { bp_perceptron_train s taken st with ghist := g }) := by
  refine ⟨?_, ?_, ?_, ?_, ?_, ?_⟩
  · intro e he
    simp only [bp_perceptron_train]
    split_ifs <;> first | rfl | exact Function.update_noteq he _ _
  · simp only [bp_perceptron_train]
    split_ifs <;> rfl
  · simp only [bp_perceptron_train]
    split_ifs <;> rfl
  · simp only [bp_perceptron_train]
    split_ifs <;> rfl
  · simp only [bp_perceptron_train]
    split_ifs <;> rfl
  · intro g
    simp only [bp_perceptron_train]
    split_ifs <;> rfl

/-- Witness for bp_train_frame at a concrete state, outcome and snapshot. -/
theorem bp_train_frame_witness :
    (bp_perceptron_train (init_state 1 0) true ⟨0, 0, 0⟩).table 1 =
        (init_state 1 0).table 1 ∧
      (bp_perceptron_train (init_state 1 0) true ⟨0, 0, 0⟩).ghist =
        (init_state 1 0).ghist :=
  ⟨(bp_train_frame (init_state 1 0) true ⟨0, 0, 0⟩).1 1 (by decide),
   (bp_train_frame (init_state 1 0) true ⟨0, 0, 0⟩).2.1⟩

end Scarab
